import Mathlib

/-!
Shallow embedding of `inventory_final.py`, a single-user shoe-inventory
tracker persisted to a comma-delimited text file, together with proofs of
the behavioural properties stated in the specification.

Modelling choices:
* Python `str` is modelled as Lean `String`, Python `int` as `Int`.
* Python `float` is modelled by the exact decimal type `PyFloat`
  (a mantissa scaled by a power of ten).  The builtins `float(s)` / `int(s)`
  are modelled with their surrounding-whitespace stripping, their
  digits-only-underscore rule, and (for `float`) exponent notation, over
  ASCII text.  The non-finite numerals `inf`/`infinity`/`nan`, which Python
  accepts but a finite decimal cannot represent, are the one family outside
  the model: `isInfNanChars` recognizes them, and the theorem about parse
  failure excludes them explicitly.
* The backing file is a flat `String`; a missing file is `none`.  Reading
  uses Python universal newlines: `\n`, `\r` and `\r\n` all end a line
  (`normNL` performs the translation).
* The interactive prompt loops consume an explicit list of input lines;
  exhausting the list (end of input) is modelled as `none`.
-/

/-- Numeric value of an ASCII digit character. -/
def digitVal (c : Char) : Nat := c.toNat - 48

/-- Tests whether a character is an ASCII digit `0`–`9`. -/
def isDigitChar (c : Char) : Bool :=
  decide (48 ≤ c.toNat) && decide (c.toNat ≤ 57)

/-- The ASCII digit character for a digit value below ten. -/
def digitChar10 (d : Nat) : Char :=
  match d with
  | 0 => '0' | 1 => '1' | 2 => '2' | 3 => '3' | 4 => '4'
  | 5 => '5' | 6 => '6' | 7 => '7' | 8 => '8' | _ => '9'

/-- Value of a big-endian list of digit characters (Horner evaluation). -/
def natFromDigitChars (cs : List Char) : Nat :=
  cs.foldl (fun a c => 10 * a + digitVal c) 0

/-- Parses a non-empty all-digit character list to its numeric value. -/
def parseNatDigits (cs : List Char) : Option Nat :=
  if !cs.isEmpty && cs.all isDigitChar then some (natFromDigitChars cs) else none

/-- Fuel-indexed base-ten digit printer (big-endian, no leading zeros). -/
def natToCharsAux : Nat → Nat → List Char
  | 0, _ => []
  | _ + 1, 0 => []
  | fuel + 1, n => natToCharsAux fuel (n / 10) ++ [digitChar10 (n % 10)]

/-- Base-ten digit characters of `n` (empty exactly when `n = 0`). -/
def natToChars (n : Nat) : List Char := natToCharsAux n n

/-- Base-ten digit characters of `n`, printing `0` as `"0"` (Python `str`). -/
def natToCharsZ (n : Nat) : List Char :=
  if n = 0 then ['0'] else natToChars n

/-- Python `str` of an integer: optional minus sign then decimal digits. -/
def intRepr (q : Int) : String :=
  String.mk ((if q < 0 then ['-'] else []) ++ natToCharsZ q.natAbs)

/-- Signed decimal digit sequence: optional sign then decimal digits.  This
is the core of `int(s)` (whitespace and underscores handled in `pyInt`) and
also parses the exponent part of a `float` numeral. -/
def pyIntChars (cs : List Char) : Option Int :=
  if cs.head? = some '-' then (parseNatDigits cs.tail).map (fun n => -(n : Int))
  else if cs.head? = some '+' then (parseNatDigits cs.tail).map (fun n => (n : Int))
  else (parseNatDigits cs).map (fun n => (n : Int))

/-- Exact decimal model of a Python float: the value `mant / 10 ^ fracDigits`. -/
structure PyFloat where
  mant : Int
  fracDigits : Nat
deriving Repr, DecidableEq

/-- Rational value of a `PyFloat`. -/
def PyFloat.toRat (x : PyFloat) : Rat :=
  (x.mant : Rat) / ((10 : Rat) ^ x.fracDigits)

/-- Parses an unsigned decimal numeral (digits with an optional single point). -/
def parseUnsignedFloat (cs : List Char) : Option PyFloat :=
  let w := cs.takeWhile (fun c => c != '.')
  match cs.dropWhile (fun c => c != '.') with
  | [] => (parseNatDigits w).map (fun n => ⟨(n : Int), 0⟩)
  | _ :: f =>
      if w.all isDigitChar && f.all isDigitChar && !(w.isEmpty && f.isEmpty) then
        some ⟨((natFromDigitChars w * 10 ^ f.length + natFromDigitChars f : Nat) : Int),
              f.length⟩
      else none

/-- Exponent marker of a `float` numeral. -/
def isExpChar (c : Char) : Bool := c == 'e' || c == 'E'

/-- Applies a decimal exponent to a parsed mantissa, keeping the value
exact: the result is `x * 10 ^ e`. -/
def applyExp (x : PyFloat) (e : Int) : PyFloat :=
  let net : Int := (x.fracDigits : Int) - e
  if net ≤ 0 then ⟨x.mant * 10 ^ (-net).toNat, 0⟩ else ⟨x.mant, net.toNat⟩

/-- Unsigned `float` numeral body: digits with an optional point, optionally
followed by `e`/`E` and a signed digit exponent (underscores are validated
and removed before this stage). -/
def parseFloatBody (cs : List Char) : Option PyFloat :=
  let m := cs.takeWhile (fun c => !isExpChar c)
  match cs.dropWhile (fun c => !isExpChar c) with
  | [] => parseUnsignedFloat m
  | _ :: expPart =>
      match parseUnsignedFloat m, pyIntChars expPart with
      | some x, some e => some (applyExp x e)
      | _, _ => none

/-- Python `float(s)` on a whitespace-free, underscore-free character list:
optional sign then an unsigned numeral body. -/
def pyFloatChars (cs : List Char) : Option PyFloat :=
  if cs.head? = some '-' then
    (parseFloatBody cs.tail).map (fun x => ⟨-x.mant, x.fracDigits⟩)
  else if cs.head? = some '+' then parseFloatBody cs.tail
  else parseFloatBody cs

/-- Python `str` of a float value: sign, integer part, point, fraction part
(`5` prints as `"5.0"`, `0.005` as `"0.005"`). -/
def PyFloat.str (x : PyFloat) : String :=
  let e := x.fracDigits
  let raw := natToChars x.mant.natAbs
  let ds := List.replicate (e + 1 - raw.length) '0' ++ raw
  let w := ds.take (ds.length - e)
  let f := if e = 0 then ['0'] else ds.drop (ds.length - e)
  String.mk ((if x.mant < 0 then ['-'] else []) ++ w ++ '.' :: f)

/-- Whitespace characters removed by Python `str.strip()`. -/
def isPySpace (c : Char) : Bool :=
  c == ' ' || c == '\t' || c == '\n' || c == '\r' || c == '\x0b' || c == '\x0c'

/-- Python `str.strip()` on a character list. -/
def pyStripChars (cs : List Char) : List Char :=
  ((cs.dropWhile isPySpace).reverse.dropWhile isPySpace).reverse

/-- Python `str.strip()`. -/
def pyStrip (s : String) : String := String.mk (pyStripChars s.toList)

/-- Walks the numeral checking Python's underscore rule: every `_` must be
immediately preceded and followed by a decimal digit (PEP 515).  `prev`
carries the previously seen character. -/
def underscoresOKAux (prev : Option Char) : List Char → Bool
  | [] => true
  | c :: rest =>
    if c = '_' then
      prev.any isDigitChar && rest.head?.any isDigitChar
        && underscoresOKAux (some c) rest
    else underscoresOKAux (some c) rest

/-- Python's numeral underscore rule for a whole string. -/
def underscoresOK (cs : List Char) : Bool := underscoresOKAux none cs

/-- Python `int(s)`: strip surrounding whitespace, validate and remove
digit-group underscores, then an optional sign and decimal digits
(ASCII fragment: unicode digits and unicode whitespace are out of scope). -/
def pyInt (s : String) : Option Int :=
  if underscoresOK (pyStripChars s.toList) then
    pyIntChars ((pyStripChars s.toList).filter (fun c => c != '_'))
  else none

/-- Python `float(s)`: strip surrounding whitespace, validate and remove
digit-group underscores, then an optional sign and a numeral body with
optional point and exponent (ASCII fragment).  The non-finite numerals
`inf`/`infinity`/`nan`, which Python also accepts, cannot be represented by
the finite-decimal `PyFloat` and are not parsed here; `isInfNanChars`
recognizes them so statements about Python parse failures can exclude
them. -/
def pyFloat (s : String) : Option PyFloat :=
  if underscoresOK (pyStripChars s.toList) then
    pyFloatChars ((pyStripChars s.toList).filter (fun c => c != '_'))
  else none

/-- Recognizes the numerals Python `float()` accepts as non-finite values:
an optional sign followed by a case variant of `inf`, `infinity` or `nan`
(to be applied to the whitespace-stripped field). -/
def isInfNanChars (cs : List Char) : Bool :=
  let body := if cs.head? = some '+' || cs.head? = some '-' then cs.tail else cs
  let low := body.map Char.toLower
  low == ['i', 'n', 'f'] || low == ['i', 'n', 'f', 'i', 'n', 'i', 't', 'y']
    || low == ['n', 'a', 'n']

/-- Python `str.upper()` (ASCII fragment). -/
def pyUpper (s : String) : String := String.mk (s.toList.map Char.toUpper)

/-- Python `str.lower()` (ASCII fragment). -/
def pyLower (s : String) : String := String.mk (s.toList.map Char.toLower)

/-- Splits a character list on a separator character, Python `str.split(sep)`:
always returns one (possibly empty) group more than the number of separators. -/
def splitOnChar (sep : Char) : List Char → List (List Char)
  | [] => [[]]
  | c :: cs =>
    if c = sep then [] :: splitOnChar sep cs
    else
      match splitOnChar sep cs with
      | [] => [[c]]
      | g :: gs => (c :: g) :: gs

/-- Worker for the universal-newline translation: emits `\n` for every
`\r`, and drops a `\n` that immediately follows a `\r` (so `\r\n` yields a
single line break); `prevCR` records whether the previous character was a
`\r`. -/
def normNLAux (prevCR : Bool) : List Char → List Char
  | [] => []
  | c :: cs =>
    if c = '\r' then '\n' :: normNLAux true cs
    else if c = '\n' then
      (if prevCR then normNLAux false cs else '\n' :: normNLAux false cs)
    else c :: normNLAux false cs

/-- Universal-newline translation performed by Python text-mode reading
(`newline=None`): `\r\n` and a lone `\r` both become `\n`. -/
def normNL (cs : List Char) : List Char := normNLAux false cs

/-- The lines produced by iterating over an open text file in Python (with
the line terminators already removed): after universal-newline translation,
chunks between newline characters, without a trailing empty chunk after a
final newline. -/
def fileLines (content : String) : List String :=
  let gs := splitOnChar '\n' (normNL content.toList)
  (if gs.getLast? = some [] then gs.dropLast else gs).map String.mk

/-- Record type for a single shoe item (Python class `Shoe`).  Numeric
fields hold the already-coerced values produced by `Shoe.__init__`. -/
structure Shoe where
  country : String
  code : String
  product : String
  cost : PyFloat
  quantity : Int
deriving Repr, DecidableEq

/-- Per-line diagnostics printed while loading (the `Warning:`/`Error:`
messages of `read_shoes_data` and `Shoe.__init__`). -/
inductive LoadWarning where
  | malformed (line : String)
  | invalidCost (cost code : String)
  | invalidQuantity (qty code : String)
deriving Repr, DecidableEq

/-- Python `Shoe.__init__` called with string fields (the load path):
`float(cost)` and `int(quantity)` with a coercion to zero, and a printed
message, when parsing raises `ValueError`. -/
def Shoe.ofStrings (country code product costStr qtyStr : String) :
    Shoe × List LoadWarning :=
  let costRes : PyFloat × List LoadWarning :=
    match pyFloat costStr with
    | some v => (v, [])
    | none => (⟨0, 0⟩, [LoadWarning.invalidCost costStr code])
  let qtyRes : Int × List LoadWarning :=
    match pyInt qtyStr with
    | some v => (v, [])
    | none => (0, [LoadWarning.invalidQuantity qtyStr code])
  (⟨country, code, product, costRes.1, qtyRes.1⟩, costRes.2 ++ qtyRes.2)

/-- Python `Shoe.to_file_string`: the comma-joined line written to the file. -/
def Shoe.to_file_string (s : Shoe) : String :=
  s.country ++ "," ++ s.code ++ "," ++ s.product ++ "," ++
    s.cost.str ++ "," ++ intRepr s.quantity

/-- Numeric field-for-field equality on shoe records: text fields equal,
cost and quantity compared as numbers (not as serialized text). -/
def Shoe.numEq (a b : Shoe) : Prop :=
  a.country = b.country ∧ a.code = b.code ∧ a.product = b.product ∧
    a.cost.toRat = b.cost.toRat ∧ a.quantity = b.quantity

instance : DecidablePred fun p : Shoe × Shoe => p.1.numEq p.2 := by
  intro p; unfold Shoe.numEq; infer_instance

/-- The literal header line of the backing file. -/
def HEADER : String := "Country,Code,Product,Cost,Quantity"

/-- The body text written by the `for shoe in shoe_list` loop of
`write_shoes_data`: one serialized line plus newline per record. -/
def linesText : List Shoe → String
  | [] => ""
  | s :: rest => s.to_file_string ++ "\n" ++ linesText rest

/-- Python `write_shoes_data`: the full new file content, a header line
followed by one comma-serialized line per record in collection order. -/
def write_shoes_data (shoes : List Shoe) : String :=
  HEADER ++ "\n" ++ linesText shoes

/-- Processing of one data line inside the `for line in f` loop of
`read_shoes_data`: strip, split on commas, build a record when there are
exactly five fields, otherwise warn and skip. -/
def readLine (line : String) : Option Shoe × List LoadWarning :=
  let data := (splitOnChar ',' (pyStrip line).toList).map String.mk
  match data with
  | [country, code, product, cost, quantity] =>
      let r := Shoe.ofStrings country code product cost quantity
      (some r.1, r.2)
  | _ => (none, [LoadWarning.malformed (pyStrip line)])

/-- Accumulation of all data lines after the header, in file order. -/
def loadLines : List String → List Shoe × List LoadWarning
  | [] => ([], [])
  | l :: rest =>
    let r := readLine l
    let rs := loadLines rest
    (r.1.toList ++ rs.1, r.2 ++ rs.2)

/-- Result of a load: the new in-memory collection, the backing-file state
afterwards, the per-line warnings, and whether the broad
`except Exception` handler at the end of `read_shoes_data` fired. -/
structure ReadResult where
  shoes : List Shoe
  file : Option String
  warnings : List LoadWarning
  readError : Bool
deriving Repr, DecidableEq

/-- Python `read_shoes_data`.  The first argument is the previous value of
the global `shoe_list`; the function clears it on entry, so the result never
depends on it.  A missing file (`none`) is bootstrapped with only the header
line.  A file without even a header line makes `next(f)` raise
`StopIteration`, which the broad `except Exception` handler absorbs
(`readError := true`) leaving the already-cleared collection empty. -/
def read_shoes_data (_shoe_list : List Shoe) (file : Option String) : ReadResult :=
  match file with
  | none =>
      { shoes := [], file := some (HEADER ++ "\n"), warnings := [], readError := false }
  | some content =>
    match fileLines content with
    | [] => { shoes := [], file := some content, warnings := [], readError := true }
    | _header :: rest =>
      let r := loadLines rest
      { shoes := r.1, file := some content, warnings := r.2, readError := false }

/-- Runs a validating prompt loop: re-prompts on every input the validator
rejects, returns the first accepted value with the remaining inputs, or
`none` when the input lines run out. -/
def firstValid {α : Type} (f : String → Option α) : List String → Option (α × List String)
  | [] => none
  | i :: rest =>
    match f i with
    | some a => some (a, rest)
    | none => firstValid f rest

/-- Validator for the `country` and `product` prompts of `capture_shoes`:
the stripped input, rejected when empty. -/
def nonEmptyInput (s : String) : Option String :=
  let t := pyStrip s
  if t = "" then none else some t

/-- Validator for the `code` prompt of `capture_shoes`: strip and uppercase,
reject the empty string and any code already present in the collection. -/
def codeValid (shoes : List Shoe) (s : String) : Option String :=
  let code := pyUpper (pyStrip s)
  if code = "" then none
  else if shoes.any (fun sh => sh.code == code) then none
  else some code

/-- Validator for the `cost` prompt of `capture_shoes`: strip, parse with
`float`, reject parse failures and negative values. -/
def costValid (s : String) : Option PyFloat :=
  match pyFloat (pyStrip s) with
  | some c => if 0 ≤ c.toRat then some c else none
  | none => none

/-- Validator for the non-negative integer prompts (`quantity` in
`capture_shoes` and `add_qty` in `re_stock`): strip, parse with `int`,
reject parse failures and negative values. -/
def qtyValid (s : String) : Option Int :=
  match pyInt (pyStrip s) with
  | some q => if 0 ≤ q then some q else none
  | none => none

/-- Python `capture_shoes` over an input script: loops each field prompt
until its validator accepts, appends the new record and persists the full
collection.  `none` means the input lines ran out before completion, in
which case neither the collection nor the file has been changed. -/
def capture_shoes (shoes : List Shoe) (_file : String) (inputs : List String) :
    Option (List Shoe × String) :=
  (firstValid nonEmptyInput inputs).bind fun c1 =>
  (firstValid (codeValid shoes) c1.2).bind fun c2 =>
  (firstValid nonEmptyInput c2.2).bind fun c3 =>
  (firstValid costValid c3.2).bind fun c4 =>
  (firstValid qtyValid c4.2).map fun c5 =>
    let new_shoe : Shoe := ⟨c1.1, c2.1, c3.1, c4.1, c5.1⟩
    (shoes ++ [new_shoe], write_shoes_data (shoes ++ [new_shoe]))

/-- Python `min(shoe_list, key=lambda shoe: shoe.quantity)` together with the
position of the returned object: index and quantity of the first record
attaining the minimum quantity (`none` on the empty list). -/
def minPair : List Shoe → Option (Nat × Int)
  | [] => none
  | s :: rest =>
    match minPair rest with
    | none => some (0, s.quantity)
    | some jq => if s.quantity ≤ jq.2 then some (0, s.quantity) else some (jq.1 + 1, jq.2)

/-- In-place update `min_shoe.quantity += add_qty`, seen from the list: the
record at the given index gets its quantity increased, all else unchanged. -/
def updateQty : List Shoe → Nat → Int → List Shoe
  | [], _, _ => []
  | s :: rest, 0, n => { s with quantity := s.quantity + n } :: rest
  | s :: rest, i + 1, n => s :: updateQty rest i n

/-- Validator for the yes/no prompt of `re_stock`: strip and lowercase,
accept `yes`/`y` and `no`/`n`, re-prompt anything else. -/
def yesNoValid (s : String) : Option Bool :=
  let c := pyLower (pyStrip s)
  if c = "yes" ∨ c = "y" then some true
  else if c = "no" ∨ c = "n" then some false
  else none

/-- Python `re_stock` over an input script: no-op on an empty collection;
otherwise find the first record with minimum quantity, ask for confirmation
(re-prompting on invalid answers), and if confirmed ask for a non-negative
amount (re-prompting on invalid input), add it in place and persist.
`none` means the input lines ran out mid-prompt (state unchanged). -/
def re_stock (shoes : List Shoe) (file : String) (inputs : List String) :
    Option (List Shoe × String) :=
  match minPair shoes with
  | none => some (shoes, file)
  | some iq =>
    (firstValid yesNoValid inputs).bind fun c1 =>
      if c1.1 then
        (firstValid qtyValid c1.2).map fun c2 =>
          let shoes2 := updateQty shoes iq.1 c2.1
          (shoes2, write_shoes_data shoes2)
      else some (shoes, file)

/-- Outcome of `search_shoe`: the early return on an empty inventory, a
found record, or the not-found message with the uppercased search key. -/
inductive SearchOutcome where
  | emptyInventory
  | found (s : Shoe)
  | notFound (code : String)
deriving Repr, DecidableEq

/-- Python `search_shoe`: early exit on an empty collection, otherwise strip
and uppercase the query and linearly scan for the first record whose stored
code equals it.  Purely a read operation: the collection is not changed. -/
def search_shoe (shoes : List Shoe) (query : String) : SearchOutcome :=
  match shoes with
  | [] => SearchOutcome.emptyInventory
  | _ :: _ =>
    let search_code := pyUpper (pyStrip query)
    match shoes.find? (fun sh => sh.code == search_code) with
    | some sh => SearchOutcome.found sh
    | none => SearchOutcome.notFound search_code

/-- Character list of a demo backing file used in concrete instances. -/
def demoShoe (code : String) (q : Int) : Shoe :=
  ⟨"SA", code, "Prod", ⟨105, 1⟩, q⟩

/-- Collection with quantities `[5, 2, 2, 9]` from the specification tests. -/
def demo4 : List Shoe :=
  [demoShoe "A" 5, demoShoe "B" 2, demoShoe "C" 2, demoShoe "D" 9]

/-- Shoe whose country field starts with a space (and contains no comma). -/
def c1Shoe : Shoe := ⟨" A", "B", "P", ⟨0, 0⟩, 0⟩

/-- Characters that survive a trip through the backing file unharmed at any
position: not the field delimiter, not a line separator, not stripped. -/
def SafeChar (c : Char) : Prop :=
  c ≠ ',' ∧ c ≠ '\n' ∧ isPySpace c = false

/-- A field value the delimited format can carry at an interior position:
free of the comma delimiter and of both line-terminator characters
(universal newlines make `\r` a line terminator too). -/
def cleanField (f : String) : Prop :=
  (',' ∉ f.toList) ∧ ('\n' ∉ f.toList) ∧ ('\r' ∉ f.toList)

/-- A string that does not begin with Python-strippable whitespace (needed
for the first field of a line, which `line.strip()` would otherwise eat). -/
def noLeadWS (f : String) : Prop :=
  f.toList.head?.all (fun c => !isPySpace c) = true

instance : DecidablePred cleanField := fun f => by
  unfold cleanField; infer_instance

instance : DecidablePred noLeadWS := fun f => by
  unfold noLeadWS; infer_instance

theorem digitVal_digitChar10 (d : Nat) (h : d < 10) :
    digitVal (digitChar10 d) = d := by
  interval_cases d <;> decide

theorem isDigitChar_digitChar10 (d : Nat) (h : d < 10) :
    isDigitChar (digitChar10 d) = true := by
  interval_cases d <;> decide

theorem natFromDigitChars_aux (l : List Char) :
    ∀ a : Nat, l.foldl (fun a c => 10 * a + digitVal c) a
      = a * 10 ^ l.length + natFromDigitChars l := by
  induction l with
  | nil => intro a; simp [natFromDigitChars]
  | cons c t ih =>
      intro a
      simp only [List.foldl_cons, List.length_cons, natFromDigitChars]
      rw [ih (10 * a + digitVal c), ih (10 * 0 + digitVal c)]
      ring

theorem natFromDigitChars_append (xs ys : List Char) :
    natFromDigitChars (xs ++ ys)
      = natFromDigitChars xs * 10 ^ ys.length + natFromDigitChars ys := by
  unfold natFromDigitChars
  rw [List.foldl_append, natFromDigitChars_aux ys]
  rfl

theorem natFromDigitChars_concat (xs : List Char) (c : Char) :
    natFromDigitChars (xs ++ [c]) = 10 * natFromDigitChars xs + digitVal c := by
  rw [natFromDigitChars_append]
  simp [natFromDigitChars]
  ring

theorem natFromDigitChars_replicate_zero (k : Nat) :
    natFromDigitChars (List.replicate k '0') = 0 := by
  induction k with
  | zero => rfl
  | succ n ih =>
      rw [List.replicate_succ, show ('0' :: List.replicate n '0')
            = [ '0' ] ++ List.replicate n '0' from rfl,
          natFromDigitChars_append, ih,
          show natFromDigitChars ['0'] = 0 from rfl]
      ring

theorem natToCharsAux_digits (fuel n : Nat) :
    ∀ c ∈ natToCharsAux fuel n, isDigitChar c = true := by
  induction fuel generalizing n with
  | zero => intro c hc; simp [natToCharsAux] at hc
  | succ f ih =>
      intro c hc
      match n with
      | 0 => simp [natToCharsAux] at hc
      | m + 1 =>
          simp only [natToCharsAux, List.mem_append, List.mem_singleton] at hc
          rcases hc with hc | hc
          · exact ih _ c hc
          · rw [hc]; exact isDigitChar_digitChar10 _ (Nat.mod_lt _ (by omega))

theorem natFromDigitChars_natToCharsAux (fuel n : Nat) (h : n ≤ fuel) :
    natFromDigitChars (natToCharsAux fuel n) = n := by
  induction fuel generalizing n with
  | zero => interval_cases n; rfl
  | succ f ih =>
      match n with
      | 0 => rfl
      | m + 1 =>
          rw [show natToCharsAux (f + 1) (m + 1)
                = natToCharsAux f ((m + 1) / 10) ++ [digitChar10 ((m + 1) % 10)] from rfl,
              natFromDigitChars_concat,
              ih _ (by omega : (m + 1) / 10 ≤ f),
              digitVal_digitChar10 _ (Nat.mod_lt _ (by omega))]
          omega

theorem natFromDigitChars_natToChars (n : Nat) :
    natFromDigitChars (natToChars n) = n :=
  natFromDigitChars_natToCharsAux n n le_rfl

theorem natToChars_digits (n : Nat) :
    ∀ c ∈ natToChars n, isDigitChar c = true :=
  natToCharsAux_digits n n

theorem natToChars_ne_nil (n : Nat) (h : n ≠ 0) : natToChars n ≠ [] := by
  match n, h with
  | m + 1, _ =>
      show natToCharsAux (m + 1) (m + 1) ≠ []
      simp [natToCharsAux]

theorem natToCharsZ_digits (n : Nat) :
    ∀ c ∈ natToCharsZ n, isDigitChar c = true := by
  unfold natToCharsZ
  split
  · intro c hc; simp at hc; rw [hc]; decide
  · exact natToChars_digits n

theorem natToCharsZ_ne_nil (n : Nat) : natToCharsZ n ≠ [] := by
  unfold natToCharsZ
  split
  · simp
  · exact natToChars_ne_nil n (by assumption)

theorem natFromDigitChars_natToCharsZ (n : Nat) :
    natFromDigitChars (natToCharsZ n) = n := by
  unfold natToCharsZ
  split
  · subst n; decide
  · exact natFromDigitChars_natToChars n

theorem parseNatDigits_of_digits (l : List Char) (h0 : l ≠ [])
    (h : ∀ c ∈ l, isDigitChar c = true) :
    parseNatDigits l = some (natFromDigitChars l) := by
  unfold parseNatDigits
  rw [if_pos]
  rw [Bool.and_eq_true, List.all_eq_true]
  exact ⟨by simp [List.isEmpty_iff, h0], h⟩

theorem parseNatDigits_natToCharsZ (n : Nat) :
    parseNatDigits (natToCharsZ n) = some n := by
  rw [parseNatDigits_of_digits _ (natToCharsZ_ne_nil n) (natToCharsZ_digits n),
      natFromDigitChars_natToCharsZ]

theorem safeChar_of_digit (c : Char) (h : isDigitChar c = true) : SafeChar c := by
  refine ⟨?_, ?_, ?_⟩
  · rintro rfl; exact absurd h (by decide)
  · rintro rfl; exact absurd h (by decide)
  · cases hsp : isPySpace c with
    | false => rfl
    | true =>
        simp only [isPySpace, Bool.or_eq_true, beq_iff_eq] at hsp
        rcases hsp with ((((rfl | rfl) | rfl) | rfl) | rfl) | rfl <;>
          exact absurd h (by decide)

theorem digit_ne_minus (c : Char) (h : isDigitChar c = true) : c ≠ '-' := by
  rintro rfl; exact absurd h (by decide)

theorem digit_ne_plus (c : Char) (h : isDigitChar c = true) : c ≠ '+' := by
  rintro rfl; exact absurd h (by decide)

theorem digit_ne_dot (c : Char) (h : isDigitChar c = true) : c ≠ '.' := by
  rintro rfl; exact absurd h (by decide)

theorem intRepr_toList (q : Int) :
    (intRepr q).toList = (if q < 0 then ['-'] else []) ++ natToCharsZ q.natAbs := rfl

theorem intRepr_safe (q : Int) : ∀ c ∈ (intRepr q).toList, SafeChar c := by
  intro c hc
  rw [intRepr_toList] at hc
  rcases List.mem_append.1 hc with hc | hc
  · split at hc
    · simp at hc; rw [hc]; exact ⟨by decide, by decide, by decide⟩
    · simp at hc
  · exact safeChar_of_digit c (natToCharsZ_digits _ c hc)

theorem pyIntChars_intRepr (q : Int) : pyIntChars (intRepr q).toList = some q := by
  unfold pyIntChars
  rw [intRepr_toList]
  by_cases hq : q < 0
  · rw [if_pos hq]
    rw [if_pos (show (['-'] ++ natToCharsZ q.natAbs).head? = some '-' by simp),
        show (['-'] ++ natToCharsZ q.natAbs).tail = natToCharsZ q.natAbs by simp,
        parseNatDigits_natToCharsZ]
    show some (-(q.natAbs : Int)) = some q
    congr 1
    omega
  · rw [if_neg hq]
    simp only [List.nil_append]
    obtain ⟨c, t, hct⟩ : ∃ c t, natToCharsZ q.natAbs = c :: t := by
      match h : natToCharsZ q.natAbs with
      | [] => exact absurd h (natToCharsZ_ne_nil _)
      | c :: t => exact ⟨c, t, rfl⟩
    have hdig : isDigitChar c = true := by
      refine natToCharsZ_digits q.natAbs c ?_
      rw [hct]; exact List.mem_cons_self c t
    rw [hct]
    simp only [List.head?_cons]
    rw [if_neg (by simp [digit_ne_minus c hdig]),
        if_neg (by simp [digit_ne_plus c hdig]), ← hct,
        parseNatDigits_natToCharsZ]
    show some ((q.natAbs : Int)) = some q
    congr 1
    omega

theorem intRepr_chars (q : Int) :
    ∀ c ∈ (intRepr q).toList, isDigitChar c = true ∨ c = '-' := by
  intro c hc
  rw [intRepr_toList] at hc
  rcases List.mem_append.1 hc with hc | hc
  · split at hc
    · simp at hc; exact Or.inr hc
    · simp at hc
  · exact Or.inl (natToCharsZ_digits _ c hc)

theorem digit_not_exp (c : Char) (h : isDigitChar c = true) : isExpChar c = false := by
  cases he : isExpChar c with
  | false => rfl
  | true =>
      simp only [isExpChar, Bool.or_eq_true, beq_iff_eq] at he
      rcases he with rfl | rfl <;> exact absurd h (by decide)

theorem takeWhile_all (p : Char → Bool) (l : List Char)
    (h : ∀ c ∈ l, p c = true) :
    l.takeWhile p = l ∧ l.dropWhile p = [] := by
  induction l with
  | nil => exact ⟨rfl, rfl⟩
  | cons c t ih =>
      have hc : p c = true := h c (List.mem_cons_self c t)
      have iht := ih (fun d hd => h d (List.mem_cons_of_mem c hd))
      simp [List.takeWhile_cons, List.dropWhile_cons, hc, iht.1, iht.2]

theorem parseFloatBody_no_exp (cs : List Char)
    (h : ∀ c ∈ cs, isExpChar c = false) :
    parseFloatBody cs = parseUnsignedFloat cs := by
  obtain ⟨ht, hd⟩ := takeWhile_all (fun c => !isExpChar c) cs
    (by intro c hc; simp [h c hc])
  unfold parseFloatBody
  rw [ht, hd]

theorem takeWhile_middle (p : Char → Bool) (w rest : List Char)
    (hw : ∀ c ∈ w, p c = true) (hx : ∀ c, rest.head? = some c → p c = false) :
    (w ++ rest).takeWhile p = w ∧ (w ++ rest).dropWhile p = rest := by
  induction w with
  | nil =>
      simp only [List.nil_append]
      cases rest with
      | nil => simp
      | cons c t =>
          have := hx c rfl
          exact ⟨by simp [List.takeWhile_cons, this], by simp [List.dropWhile_cons, this]⟩
  | cons a w ih =>
      have ha : p a = true := hw a (List.mem_cons_self a w)
      have ihh := ih (fun c hc => hw c (List.mem_cons_of_mem a hc))
      simp [List.takeWhile_cons, List.dropWhile_cons, ha, ihh.1, ihh.2]

theorem parseUnsignedFloat_eq (w f : List Char)
    (hw : ∀ c ∈ w, isDigitChar c = true) (hf : ∀ c ∈ f, isDigitChar c = true)
    (hwne : w ≠ []) :
    parseUnsignedFloat (w ++ '.' :: f)
      = some ⟨((natFromDigitChars w * 10 ^ f.length + natFromDigitChars f : Nat) : Int),
              f.length⟩ := by
  have hp : ∀ c ∈ w, (c != '.') = true := by
    intro c hc
    simp only [bne_iff_ne, ne_eq]
    exact digit_ne_dot c (hw c hc)
  have hmid := takeWhile_middle (fun c => c != '.') w ('.' :: f) hp
    (by intro c hc; simp only [List.head?_cons, Option.some.injEq] at hc; rw [← hc]; decide)
  unfold parseUnsignedFloat
  rw [hmid.1, hmid.2]
  show (if (w.all isDigitChar && f.all isDigitChar && !(w.isEmpty && f.isEmpty)) = true
      then some (PyFloat.mk
        ((natFromDigitChars w * 10 ^ f.length + natFromDigitChars f : Nat) : Int) f.length)
      else none)
    = some ⟨((natFromDigitChars w * 10 ^ f.length + natFromDigitChars f : Nat) : Int),
            f.length⟩
  rw [if_pos]
  rw [Bool.and_eq_true, Bool.and_eq_true]
  refine ⟨⟨List.all_eq_true.2 hw, List.all_eq_true.2 hf⟩, ?_⟩
  simp [List.isEmpty_iff, hwne]

theorem floatStr_core (x : PyFloat) :
    ∃ w f : List Char,
      (PyFloat.str x).toList = (if x.mant < 0 then ['-'] else []) ++ w ++ '.' :: f ∧
      (∀ c ∈ w, isDigitChar c = true) ∧ (∀ c ∈ f, isDigitChar c = true) ∧ w ≠ [] ∧
      ((natFromDigitChars w * 10 ^ f.length + natFromDigitChars f : Nat) : Rat)
          / (10 : Rat) ^ f.length
        = (x.mant.natAbs : Rat) / (10 : Rat) ^ x.fracDigits := by
  have hdig : ∀ c ∈ List.replicate (x.fracDigits + 1 - (natToChars x.mant.natAbs).length) '0'
      ++ natToChars x.mant.natAbs, isDigitChar c = true := by
    intro c hc
    rcases List.mem_append.1 hc with hc | hc
    · rw [List.eq_of_mem_replicate hc]; decide
    · exact natToChars_digits _ c hc
  set a := x.mant.natAbs with ha
  set e := x.fracDigits with he
  set raw := natToChars a with hraw
  set ds := List.replicate (e + 1 - raw.length) '0' ++ raw with hds
  have hlen : e + 1 ≤ ds.length := by
    rw [hds, List.length_append, List.length_replicate]
    omega
  have hnat : natFromDigitChars ds = a := by
    rw [hds, natFromDigitChars_append, natFromDigitChars_replicate_zero, hraw,
        natFromDigitChars_natToChars]
    ring
  refine ⟨ds.take (ds.length - e),
          if e = 0 then ['0'] else ds.drop (ds.length - e), rfl, ?_, ?_, ?_, ?_⟩
  · intro c hc; exact hdig c (List.take_subset _ _ hc)
  · intro c hc
    split at hc
    · simp only [List.mem_singleton] at hc; rw [hc]; decide
    · exact hdig c (List.drop_subset _ _ hc)
  · have : (ds.take (ds.length - e)).length = ds.length - e := by
      rw [List.length_take]
      omega
    intro hnil
    rw [hnil] at this
    simp at this
    omega
  · by_cases he0 : e = 0
    · rw [if_pos he0, he0]
      rw [show ds.length - 0 = ds.length from rfl, List.take_length, hnat]
      rw [show natFromDigitChars ['0'] = 0 from rfl,
          show (['0'] : List Char).length = 1 from rfl]
      push_cast
      rw [pow_zero, div_one, pow_one]
      field_simp
    · rw [if_neg he0]
      have hfl : (ds.drop (ds.length - e)).length = e := by
        rw [List.length_drop]
        omega
      have hsplit : natFromDigitChars (ds.take (ds.length - e))
            * 10 ^ (ds.drop (ds.length - e)).length
          + natFromDigitChars (ds.drop (ds.length - e)) = a := by
        rw [← natFromDigitChars_append, List.take_append_drop, hnat]
      rw [hsplit, hfl]

theorem floatStr_safe (x : PyFloat) : ∀ c ∈ (PyFloat.str x).toList, SafeChar c := by
  obtain ⟨w, f, hlist, hw, hf, _, _⟩ := floatStr_core x
  intro c hc
  rw [hlist] at hc
  rcases List.mem_append.1 hc with hc | hc
  · rcases List.mem_append.1 hc with hc | hc
    · by_cases hm : x.mant < 0
      · rw [if_pos hm] at hc
        simp only [List.mem_singleton] at hc
        rw [hc]; exact ⟨by decide, by decide, by decide⟩
      · rw [if_neg hm] at hc
        simp at hc
    · exact safeChar_of_digit c (hw c hc)
  · rcases List.mem_cons.1 hc with hc | hc
    · rw [hc]; exact ⟨by decide, by decide, by decide⟩
    · exact safeChar_of_digit c (hf c hc)

theorem pyFloatChars_str_toRat (x : PyFloat) :
    (pyFloatChars (PyFloat.str x).toList).map PyFloat.toRat = some x.toRat := by
  obtain ⟨w, f, hlist, hw, hf, hwne, hval⟩ := floatStr_core x
  obtain ⟨c, t, hct⟩ := List.exists_cons_of_ne_nil hwne
  have hcd : isDigitChar c = true := hw c (by rw [hct]; exact List.mem_cons_self c t)
  have hparse := parseUnsignedFloat_eq w f hw hf hwne
  have hbody : parseFloatBody (w ++ '.' :: f) = parseUnsignedFloat (w ++ '.' :: f) := by
    refine parseFloatBody_no_exp _ ?_
    intro d hd
    rcases List.mem_append.1 hd with hd | hd
    · exact digit_not_exp d (hw d hd)
    · rcases List.mem_cons.1 hd with hd | hd
      · rw [hd]; decide
      · exact digit_not_exp d (hf d hd)
  have hcast : ((((natFromDigitChars w * 10 ^ f.length + natFromDigitChars f : Nat)
      : Int)) : Rat)
      = ((natFromDigitChars w * 10 ^ f.length + natFromDigitChars f : Nat) : Rat) := by
    push_cast; ring
  unfold pyFloatChars
  rw [hlist]
  by_cases hm : x.mant < 0
  · rw [if_pos hm]
    rw [if_pos (show ((['-'] ++ w ++ '.' :: f).head? = some '-') from rfl),
        show (['-'] ++ w ++ '.' :: f).tail = w ++ '.' :: f from rfl,
        hbody, hparse]
    show some (PyFloat.toRat
        ⟨-((natFromDigitChars w * 10 ^ f.length + natFromDigitChars f : Nat) : Int),
         f.length⟩) = some x.toRat
    congr 1
    unfold PyFloat.toRat
    simp only
    rw [show ((-((natFromDigitChars w * 10 ^ f.length + natFromDigitChars f : Nat) : Int)
          : Int) : Rat) = -(((natFromDigitChars w * 10 ^ f.length
          + natFromDigitChars f : Nat) : Int) : Rat) by push_cast; ring,
        hcast, neg_div, hval]
    have hmi : (x.mant : Rat) = -((x.mant.natAbs : Rat)) := by
      have h0 : x.mant = -(x.mant.natAbs : Int) := by omega
      conv_lhs => rw [h0]
      rw [Int.cast_neg, Int.cast_natCast]
    rw [hmi, neg_div]
  · rw [if_neg hm]
    have hhead : (w ++ '.' :: f).head? = some c := by rw [hct]; rfl
    rw [show [] ++ w ++ '.' :: f = w ++ '.' :: f from rfl]
    rw [if_neg (fun heq => digit_ne_minus c hcd
          (Option.some.inj (hhead.symm.trans heq))),
        if_neg (fun heq => digit_ne_plus c hcd
          (Option.some.inj (hhead.symm.trans heq))),
        hbody, hparse]
    show some (PyFloat.toRat
        ⟨((natFromDigitChars w * 10 ^ f.length + natFromDigitChars f : Nat) : Int),
         f.length⟩) = some x.toRat
    congr 1
    unfold PyFloat.toRat
    simp only
    rw [hcast, hval]
    have hmi : (x.mant : Rat) = ((x.mant.natAbs : Rat)) := by
      have h0 : x.mant = (x.mant.natAbs : Int) := by omega
      conv_lhs => rw [h0]
      rw [Int.cast_natCast]
    rw [hmi]

theorem toList_append (a b : String) : (a ++ b).toList = a.toList ++ b.toList :=
  String.data_append a b

theorem dropWhile_eq_self_of_head (p : Char → Bool) (l : List Char)
    (h : ∀ c, l.head? = some c → p c = false) : l.dropWhile p = l := by
  cases l with
  | nil => rfl
  | cons c t => simp [List.dropWhile_cons, h c rfl]

theorem pyStripChars_eq_self (l : List Char)
    (h1 : ∀ c, l.head? = some c → isPySpace c = false)
    (h2 : ∀ c, l.getLast? = some c → isPySpace c = false) :
    pyStripChars l = l := by
  unfold pyStripChars
  rw [dropWhile_eq_self_of_head _ _ h1,
      dropWhile_eq_self_of_head _ _
        (fun c hc => h2 c (by rwa [List.head?_reverse] at hc)),
      List.reverse_reverse]

theorem mem_of_head? (l : List Char) (c : Char) (h : l.head? = some c) : c ∈ l := by
  cases l with
  | nil => simp at h
  | cons a t =>
      rw [List.head?_cons] at h
      rw [← Option.some.inj h]
      exact List.mem_cons_self a t

theorem mem_of_getLast? (l : List Char) (c : Char) (h : l.getLast? = some c) :
    c ∈ l := by
  induction l with
  | nil => simp at h
  | cons a t ih =>
      cases t with
      | nil =>
          rw [List.getLast?_singleton] at h
          rw [← Option.some.inj h]
          exact List.mem_cons_self a []
      | cons b u =>
          rw [List.getLast?_cons_cons] at h
          exact List.mem_cons_of_mem a (ih h)

theorem pyStripChars_of_all_safe (l : List Char) (h : ∀ c ∈ l, SafeChar c) :
    pyStripChars l = l := by
  refine pyStripChars_eq_self l ?_ ?_
  · intro c hc
    exact (h c (mem_of_head? l c hc)).2.2
  · intro c hc
    exact (h c (mem_of_getLast? l c hc)).2.2

theorem underscoresOKAux_of_not_mem (prev : Option Char) (l : List Char)
    (h : '_' ∉ l) : underscoresOKAux prev l = true := by
  induction l generalizing prev with
  | nil => rfl
  | cons c t ih =>
      have hc : c ≠ '_' := fun e => h (e ▸ List.mem_cons_self c t)
      unfold underscoresOKAux
      rw [if_neg hc]
      exact ih (some c) (fun m => h (List.mem_cons_of_mem c m))

theorem underscoresOK_of_not_mem (l : List Char) (h : '_' ∉ l) :
    underscoresOK l = true :=
  underscoresOKAux_of_not_mem none l h

theorem filter_no_underscore (l : List Char) (h : '_' ∉ l) :
    l.filter (fun c => c != '_') = l := by
  apply List.filter_eq_self.2
  intro c hc
  simp only [bne_iff_ne, ne_eq]
  exact fun e => h (e ▸ hc)

theorem floatStr_chars (x : PyFloat) :
    ∀ c ∈ (PyFloat.str x).toList, isDigitChar c = true ∨ c = '-' ∨ c = '.' := by
  obtain ⟨w, f, hlist, hw, hf, _, _⟩ := floatStr_core x
  intro c hc
  rw [hlist] at hc
  rcases List.mem_append.1 hc with hc | hc
  · rcases List.mem_append.1 hc with hc | hc
    · split at hc
      · simp only [List.mem_singleton] at hc
        exact Or.inr (Or.inl hc)
      · simp at hc
    · exact Or.inl (hw c hc)
  · rcases List.mem_cons.1 hc with hc | hc
    · exact Or.inr (Or.inr hc)
    · exact Or.inl (hf c hc)

theorem floatStr_no_underscore (x : PyFloat) : '_' ∉ (PyFloat.str x).toList := by
  intro hm
  rcases floatStr_chars x '_' hm with h | h | h
  · exact absurd h (by decide)
  · exact absurd h (by decide)
  · exact absurd h (by decide)

theorem intRepr_no_underscore (q : Int) : '_' ∉ (intRepr q).toList := by
  intro hm
  rcases intRepr_chars q '_' hm with h | h
  · exact absurd h (by decide)
  · exact absurd h (by decide)

theorem pyFloat_str_toRat (x : PyFloat) :
    (pyFloat (PyFloat.str x)).map PyFloat.toRat = some x.toRat := by
  have hstrip : pyStripChars (PyFloat.str x).toList = (PyFloat.str x).toList :=
    pyStripChars_of_all_safe _ (floatStr_safe x)
  unfold pyFloat
  rw [hstrip, if_pos (underscoresOK_of_not_mem _ (floatStr_no_underscore x)),
      filter_no_underscore _ (floatStr_no_underscore x)]
  exact pyFloatChars_str_toRat x

theorem pyInt_intRepr (q : Int) : pyInt (intRepr q) = some q := by
  have hstrip : pyStripChars (intRepr q).toList = (intRepr q).toList :=
    pyStripChars_of_all_safe _ (intRepr_safe q)
  unfold pyInt
  rw [hstrip, if_pos (underscoresOK_of_not_mem _ (intRepr_no_underscore q)),
      filter_no_underscore _ (intRepr_no_underscore q)]
  exact pyIntChars_intRepr q

theorem normNL_of_not_mem (l : List Char) (h : '\r' ∉ l) : normNL l = l := by
  unfold normNL
  induction l with
  | nil => rfl
  | cons c t ih =>
      have hc : c ≠ '\r' := fun e => h (e ▸ List.mem_cons_self c t)
      have iht := ih (fun m => h (List.mem_cons_of_mem c m))
      rw [show normNLAux false (c :: t)
            = if c = '\r' then '\n' :: normNLAux true t
              else if c = '\n' then '\n' :: normNLAux false t
              else c :: normNLAux false t from rfl,
          if_neg hc]
      by_cases hn : c = '\n'
      · rw [if_pos hn, iht, hn]
      · rw [if_neg hn, iht]

theorem splitOnChar_of_not_mem (sep : Char) (l : List Char) (h : sep ∉ l) :
    splitOnChar sep l = [l] := by
  induction l with
  | nil => rfl
  | cons c t ih =>
      have hc : c ≠ sep := fun e => h (e ▸ List.mem_cons_self c t)
      simp only [splitOnChar]
      rw [if_neg hc, ih (fun m => h (List.mem_cons_of_mem c m))]

theorem splitOnChar_append (sep : Char) (a b : List Char) (h : sep ∉ a) :
    splitOnChar sep (a ++ sep :: b) = a :: splitOnChar sep b := by
  induction a with
  | nil => simp [splitOnChar]
  | cons c t ih =>
      have hc : c ≠ sep := fun e => h (e ▸ List.mem_cons_self c t)
      simp only [List.cons_append, splitOnChar, List.append_eq]
      rw [if_neg hc, ih (fun m => h (List.mem_cons_of_mem c m))]

theorem exists_getLast?_mem (l : List Char) (h : l ≠ []) :
    ∃ d, l.getLast? = some d ∧ d ∈ l :=
  ⟨l.getLast h, by rw [List.getLast?_eq_getLast l h], List.getLast_mem h⟩

theorem splitOnChar_linesText (shoes : List Shoe)
    (h : ∀ s ∈ shoes, '\n' ∉ (Shoe.to_file_string s).toList) :
    splitOnChar '\n' (linesText shoes).toList
      = shoes.map (fun s => (Shoe.to_file_string s).toList) ++ [[]] := by
  induction shoes with
  | nil => rfl
  | cons s rest ih =>
      have hl : (linesText (s :: rest)).toList
          = (Shoe.to_file_string s).toList ++ '\n' :: (linesText rest).toList := by
        show (Shoe.to_file_string s ++ "\n" ++ linesText rest).toList = _
        rw [toList_append, toList_append, List.append_assoc]
        rfl
      rw [hl, splitOnChar_append _ _ _ (h s (List.mem_cons_self s rest)),
          ih (fun t m => h t (List.mem_cons_of_mem s m))]
      rfl

theorem fileLines_eq (content : String) (gs : List (List Char))
    (hgs : splitOnChar '\n' (normNL content.toList) = gs) :
    fileLines content
      = (if gs.getLast? = some [] then gs.dropLast else gs).map String.mk := by
  unfold fileLines
  rw [hgs]

theorem linesText_no_cr (shoes : List Shoe)
    (h : ∀ s ∈ shoes, '\r' ∉ (Shoe.to_file_string s).toList) :
    '\r' ∉ (linesText shoes).toList := by
  induction shoes with
  | nil => exact fun hm => absurd hm (by decide)
  | cons s rest ih =>
      intro hm
      have hl : (linesText (s :: rest)).toList
          = (Shoe.to_file_string s).toList ++ '\n' :: (linesText rest).toList := by
        show (Shoe.to_file_string s ++ "\n" ++ linesText rest).toList = _
        rw [toList_append, toList_append, List.append_assoc]
        rfl
      rw [hl] at hm
      rcases List.mem_append.1 hm with hm | hm
      · exact h s (List.mem_cons_self s rest) hm
      · rcases List.mem_cons.1 hm with hm | hm
        · exact absurd hm (by decide)
        · exact ih (fun t m => h t (List.mem_cons_of_mem s m)) hm

theorem fileLines_write (shoes : List Shoe)
    (h : ∀ s ∈ shoes, '\n' ∉ (Shoe.to_file_string s).toList)
    (hcr : ∀ s ∈ shoes, '\r' ∉ (Shoe.to_file_string s).toList) :
    fileLines (write_shoes_data shoes) = HEADER :: shoes.map Shoe.to_file_string := by
  have hwtl : (write_shoes_data shoes).toList
      = HEADER.toList ++ '\n' :: (linesText shoes).toList := by
    show (HEADER ++ "\n" ++ linesText shoes).toList = _
    rw [toList_append, toList_append, List.append_assoc]
    rfl
  have hwcr : '\r' ∉ (write_shoes_data shoes).toList := by
    intro hm
    rw [hwtl] at hm
    rcases List.mem_append.1 hm with hm | hm
    · exact absurd hm (by decide)
    · rcases List.mem_cons.1 hm with hm | hm
      · exact absurd hm (by decide)
      · exact linesText_no_cr shoes hcr hm
  have hsplit : splitOnChar '\n' (normNL (write_shoes_data shoes).toList)
      = (HEADER.toList :: shoes.map fun s => (Shoe.to_file_string s).toList) ++ [[]] := by
    rw [normNL_of_not_mem _ hwcr, hwtl,
        splitOnChar_append _ _ _ (by decide : '\n' ∉ HEADER.toList),
        splitOnChar_linesText shoes h]
    rfl
  rw [fileLines_eq _ _ hsplit, List.getLast?_concat, if_pos rfl, List.dropLast_concat,
      List.map_cons, List.map_map]
  rfl

theorem noLeadWS_head (f : String) (h : noLeadWS f) :
    ∀ c, f.toList.head? = some c → isPySpace c = false := by
  intro c hc
  unfold noLeadWS at h
  rw [hc] at h
  simpa using h

theorem getLast?_append_cons (l l' : List Char) (x d : Char)
    (h : l'.getLast? = some d) : (l ++ x :: l').getLast? = some d := by
  rw [show x :: l' = [x] ++ l' from rfl, List.getLast?_append, List.getLast?_append, h]
  rfl

theorem to_file_string_toList (s : Shoe) :
    (Shoe.to_file_string s).toList
      = s.country.toList ++ ',' :: (s.code.toList ++ ',' :: (s.product.toList
          ++ ',' :: ((PyFloat.str s.cost).toList ++ ',' :: (intRepr s.quantity).toList))) := by
  show (s.country ++ "," ++ s.code ++ "," ++ s.product ++ "," ++
      s.cost.str ++ "," ++ intRepr s.quantity).toList = _
  rw [toList_append, toList_append, toList_append, toList_append, toList_append,
      toList_append, toList_append, toList_append]
  simp [List.append_assoc, show (",".toList) = [','] from rfl, List.singleton_append]

theorem to_file_string_no_newline (s : Shoe) (hco : cleanField s.country)
    (hcd : cleanField s.code) (hpr : cleanField s.product) :
    '\n' ∉ (Shoe.to_file_string s).toList := by
  rw [to_file_string_toList]
  intro hmem
  simp only [List.mem_append, List.mem_cons] at hmem
  rcases hmem with h | h | h | h | h | h | h | h | h
  · exact hco.2.1 h
  · exact absurd h (by decide)
  · exact hcd.2.1 h
  · exact absurd h (by decide)
  · exact hpr.2.1 h
  · exact absurd h (by decide)
  · exact (floatStr_safe s.cost '\n' h).2.1 rfl
  · exact absurd h (by decide)
  · exact (intRepr_safe s.quantity '\n' h).2.1 rfl

theorem to_file_string_no_cr (s : Shoe) (hco : cleanField s.country)
    (hcd : cleanField s.code) (hpr : cleanField s.product) :
    '\r' ∉ (Shoe.to_file_string s).toList := by
  rw [to_file_string_toList]
  intro hmem
  simp only [List.mem_append, List.mem_cons] at hmem
  rcases hmem with h | h | h | h | h | h | h | h | h
  · exact hco.2.2 h
  · exact absurd h (by decide)
  · exact hcd.2.2 h
  · exact absurd h (by decide)
  · exact hpr.2.2 h
  · exact absurd h (by decide)
  · exact absurd (floatStr_safe s.cost '\r' h).2.2 (by decide)
  · exact absurd h (by decide)
  · exact absurd (intRepr_safe s.quantity '\r' h).2.2 (by decide)

theorem intRepr_getLast (q : Int) :
    ∃ d, (intRepr q).toList.getLast? = some d ∧ isPySpace d = false := by
  obtain ⟨d, hd, hdm⟩ :=
    exists_getLast?_mem (natToCharsZ q.natAbs) (natToCharsZ_ne_nil _)
  refine ⟨d, ?_, (safeChar_of_digit d (natToCharsZ_digits _ d hdm)).2.2⟩
  rw [intRepr_toList, List.getLast?_append, hd]
  rfl

theorem to_file_string_strip (s : Shoe) (hws : noLeadWS s.country) :
    pyStrip (Shoe.to_file_string s) = Shoe.to_file_string s := by
  have hhead : ∀ c, (Shoe.to_file_string s).toList.head? = some c
      → isPySpace c = false := by
    intro c hc
    rw [to_file_string_toList, List.head?_append] at hc
    cases hco : s.country.toList.head? with
    | some d =>
        rw [hco] at hc
        rw [← Option.some.inj hc]
        exact noLeadWS_head s.country hws d hco
    | none =>
        rw [hco] at hc
        rw [← Option.some.inj hc]
        decide
  have hlast : ∀ c, (Shoe.to_file_string s).toList.getLast? = some c
      → isPySpace c = false := by
    intro c hc
    obtain ⟨d, hd, hdw⟩ := intRepr_getLast s.quantity
    have h4 := getLast?_append_cons (PyFloat.str s.cost).toList _ ',' d hd
    have h3 := getLast?_append_cons s.product.toList _ ',' d h4
    have h2 := getLast?_append_cons s.code.toList _ ',' d h3
    have h1 := getLast?_append_cons s.country.toList _ ',' d h2
    rw [to_file_string_toList, h1] at hc
    rw [← Option.some.inj hc]
    exact hdw
  show String.mk (pyStripChars (Shoe.to_file_string s).toList) = Shoe.to_file_string s
  rw [pyStripChars_eq_self _ hhead hlast]
  rfl

theorem to_file_string_split (s : Shoe) (hco : cleanField s.country)
    (hcd : cleanField s.code) (hpr : cleanField s.product) :
    splitOnChar ',' (Shoe.to_file_string s).toList
      = [s.country.toList, s.code.toList, s.product.toList,
         (PyFloat.str s.cost).toList, (intRepr s.quantity).toList] := by
  rw [to_file_string_toList,
      splitOnChar_append _ _ _ hco.1,
      splitOnChar_append _ _ _ hcd.1,
      splitOnChar_append _ _ _ hpr.1,
      splitOnChar_append _ _ _ (fun m => (floatStr_safe s.cost ',' m).1 rfl),
      splitOnChar_of_not_mem _ _ (fun m => (intRepr_safe s.quantity ',' m).1 rfl)]

theorem readLine_to_file_string (s : Shoe) (hco : cleanField s.country)
    (hcd : cleanField s.code) (hpr : cleanField s.product) (hws : noLeadWS s.country) :
    ∃ cost2 : PyFloat,
      readLine (Shoe.to_file_string s)
        = (some ⟨s.country, s.code, s.product, cost2, s.quantity⟩, [])
      ∧ cost2.toRat = s.cost.toRat := by
  obtain ⟨cost2, hpf, hrat⟩ : ∃ c2, pyFloat (PyFloat.str s.cost) = some c2
      ∧ c2.toRat = s.cost.toRat := by
    have hr := pyFloat_str_toRat s.cost
    cases hpf : pyFloat (PyFloat.str s.cost) with
    | none => rw [hpf] at hr; simp at hr
    | some c2 =>
        rw [hpf] at hr
        exact ⟨c2, rfl, by simpa using hr⟩
  refine ⟨cost2, ?_, hrat⟩
  unfold readLine
  rw [to_file_string_strip s hws, to_file_string_split s hco hcd hpr]
  show (some (Shoe.ofStrings s.country s.code s.product s.cost.str
          (intRepr s.quantity)).1,
        (Shoe.ofStrings s.country s.code s.product s.cost.str
          (intRepr s.quantity)).2)
      = (some ⟨s.country, s.code, s.product, cost2, s.quantity⟩, [])
  unfold Shoe.ofStrings
  rw [show pyFloat s.cost.str = some cost2 from hpf, pyInt_intRepr]
  rfl

theorem loadLines_cons (l : String) (rest : List String) :
    loadLines (l :: rest)
      = ((readLine l).1.toList ++ (loadLines rest).1,
         (readLine l).2 ++ (loadLines rest).2) := rfl

theorem loadLines_append (a b : List String) :
    loadLines (a ++ b)
      = ((loadLines a).1 ++ (loadLines b).1, (loadLines a).2 ++ (loadLines b).2) := by
  induction a with
  | nil => rfl
  | cons l t ih =>
      rw [List.cons_append, loadLines_cons, loadLines_cons, ih]
      simp [List.append_assoc]

theorem read_some_lines (prev : List Shoe) (content : String)
    (header : String) (rest : List String) (hf : fileLines content = header :: rest) :
    read_shoes_data prev (some content)
      = { shoes := (loadLines rest).1, file := some content,
          warnings := (loadLines rest).2, readError := false } := by
  have hdef : read_shoes_data prev (some content)
      = (match fileLines content with
         | [] => { shoes := [], file := some content, warnings := [], readError := true }
         | _header :: rest =>
            { shoes := (loadLines rest).1, file := some content,
              warnings := (loadLines rest).2, readError := false } : ReadResult) := rfl
  rw [hdef, hf]

theorem loadLines_map_to_file (shoes : List Shoe)
    (h : ∀ s ∈ shoes, cleanField s.country ∧ cleanField s.code ∧ cleanField s.product
        ∧ noLeadWS s.country) :
    List.Forall₂ Shoe.numEq (loadLines (shoes.map Shoe.to_file_string)).1 shoes := by
  induction shoes with
  | nil => exact List.Forall₂.nil
  | cons s rest ih =>
      obtain ⟨hco, hcd, hpr, hws⟩ := h s (List.mem_cons_self s rest)
      obtain ⟨c2, hline, hrat⟩ := readLine_to_file_string s hco hcd hpr hws
      rw [List.map_cons, loadLines_cons, hline]
      show List.Forall₂ Shoe.numEq
        ((⟨s.country, s.code, s.product, c2, s.quantity⟩ : Shoe)
          :: (loadLines (rest.map Shoe.to_file_string)).1) (s :: rest)
      exact List.Forall₂.cons ⟨rfl, rfl, rfl, hrat, rfl⟩
        (ih (fun t m => h t (List.mem_cons_of_mem s m)))

/-- C1 counterexample: the claim quantifies over collections whose fields
merely contain no comma.  The single record with country `" A"` (a leading
space, no comma anywhere) is saved and reloaded with country `"A"`, because
`read_shoes_data` strips each whole line, so the round trip is not
field-for-field equal. -/
theorem c1_counterexample :
    (',' ∉ c1Shoe.country.toList ∧ ',' ∉ c1Shoe.code.toList
      ∧ ',' ∉ c1Shoe.product.toList) ∧
    ¬ List.Forall₂ Shoe.numEq
        (read_shoes_data [] (some (write_shoes_data [c1Shoe]))).shoes [c1Shoe] := by
  refine ⟨⟨by decide, by decide, by decide⟩, ?_⟩
  intro hcon
  have hread : (read_shoes_data [] (some (write_shoes_data [c1Shoe]))).shoes
      = [⟨"A", "B", "P", ⟨0, 1⟩, 0⟩] := by decide
  rw [hread] at hcon
  rcases hcon with _ | ⟨hne, _⟩
  exact absurd hne.1 (by decide)

/-- C1 (amended): saving a collection with `write_shoes_data` and loading it
back with `read_shoes_data` yields the same records in the same order,
field-for-field equal with cost and quantity compared numerically, provided
no text field contains a comma, a newline or a carriage return (text-mode
reading treats a carriage return as a line terminator too) and the country
field (the first on its line) does not begin with strippable whitespace. -/
theorem c1_round_trip (prev shoes : List Shoe)
    (h : ∀ s ∈ shoes, cleanField s.country ∧ cleanField s.code ∧ cleanField s.product
        ∧ noLeadWS s.country) :
    List.Forall₂ Shoe.numEq
      (read_shoes_data prev (some (write_shoes_data shoes))).shoes shoes := by
  have hnl : ∀ s ∈ shoes, '\n' ∉ (Shoe.to_file_string s).toList := fun s m =>
    to_file_string_no_newline s (h s m).1 (h s m).2.1 (h s m).2.2.1
  have hcr : ∀ s ∈ shoes, '\r' ∉ (Shoe.to_file_string s).toList := fun s m =>
    to_file_string_no_cr s (h s m).1 (h s m).2.1 (h s m).2.2.1
  rw [read_some_lines prev _ HEADER (shoes.map Shoe.to_file_string)
      (fileLines_write shoes hnl hcr)]
  exact loadLines_map_to_file shoes h

/-- C1 witness: the round trip at a concrete two-record collection. -/
theorem c1_round_trip_witness :
    List.Forall₂ Shoe.numEq
      (read_shoes_data [] (some (write_shoes_data demo4))).shoes demo4 :=
  c1_round_trip [] demo4 (by decide)

theorem minPair_eq_none_iff (l : List Shoe) : minPair l = none ↔ l = [] := by
  cases l with
  | nil => simp [minPair]
  | cons s rest =>
      simp only [minPair]
      cases minPair rest with
      | none => simp
      | some jq =>
          by_cases h : s.quantity ≤ jq.2 <;> simp [h]

theorem minPair_char (l : List Shoe) :
    ∀ i q, minPair l = some (i, q) →
      (∃ s, l.get? i = some s ∧ s.quantity = q) ∧
      (∀ t ∈ l, q ≤ t.quantity) ∧
      (∀ j, j < i → ∀ t, l.get? j = some t → q < t.quantity) := by
  induction l with
  | nil => intro i q h; simp [minPair] at h
  | cons s rest ih =>
      intro i q h
      rw [show minPair (s :: rest)
            = (match minPair rest with
               | none => some (0, s.quantity)
               | some jq => if s.quantity ≤ jq.2 then some (0, s.quantity)
                            else some (jq.1 + 1, jq.2)) from rfl] at h
      cases hm : minPair rest with
      | none =>
          rw [hm] at h
          have hrest : rest = [] := (minPair_eq_none_iff rest).1 hm
          simp only [Option.some.injEq, Prod.mk.injEq] at h
          obtain ⟨hi, hq⟩ := h
          subst hi; subst hq; subst hrest
          refine ⟨⟨s, rfl, rfl⟩, ?_, ?_⟩
          · intro t ht
            rw [List.mem_singleton.1 ht]
          · intro j hj; omega
      | some jq =>
          obtain ⟨j0, q0⟩ := jq
          rw [hm] at h
          rw [show (match some (j0, q0) with
               | none => some (0, s.quantity)
               | some jq => if s.quantity ≤ jq.2 then some (0, s.quantity)
                            else some (jq.1 + 1, jq.2))
              = if s.quantity ≤ q0 then some (0, s.quantity)
                else some (j0 + 1, q0) from rfl] at h
          obtain ⟨⟨t0, hget, hq0⟩, hmin, hfirst⟩ := ih j0 q0 hm
          by_cases hle : s.quantity ≤ q0
          · rw [if_pos hle] at h
            simp only [Option.some.injEq, Prod.mk.injEq] at h
            obtain ⟨hi, hq⟩ := h
            subst hi; subst hq
            refine ⟨⟨s, rfl, rfl⟩, ?_, ?_⟩
            · intro t ht
              rcases List.mem_cons.1 ht with ht | ht
              · rw [ht]
              · exact le_trans hle (hmin t ht)
            · intro j hj; omega
          · rw [if_neg hle] at h
            simp only [Option.some.injEq, Prod.mk.injEq] at h
            obtain ⟨hi, hq⟩ := h
            subst hi; subst hq
            refine ⟨⟨t0, by simpa using hget, hq0⟩, ?_, ?_⟩
            · intro t ht
              rcases List.mem_cons.1 ht with ht | ht
              · rw [ht]; omega
              · exact hmin t ht
            · intro j hj t hgt
              cases j with
              | zero =>
                  simp only [List.get?_cons_zero, Option.some.injEq] at hgt
                  rw [← hgt]; omega
              | succ k =>
                  simp only [List.get?_cons_succ] at hgt
                  exact hfirst k (by omega) t hgt

theorem minPair_of_ne_nil (l : List Shoe) (h : l ≠ []) :
    ∃ i q, minPair l = some (i, q) := by
  cases hm : minPair l with
  | none => exact absurd ((minPair_eq_none_iff l).1 hm) h
  | some p =>
      obtain ⟨a, b⟩ := p
      exact ⟨a, b, rfl⟩

theorem updateQty_length (l : List Shoe) (i : Nat) (n : Int) :
    (updateQty l i n).length = l.length := by
  induction l generalizing i with
  | nil => rfl
  | cons s rest ih =>
      cases i with
      | zero => rfl
      | succ j => simp only [updateQty, List.length_cons, ih j]

theorem updateQty_get_same (l : List Shoe) (i : Nat) (n : Int) (s : Shoe)
    (h : l.get? i = some s) :
    (updateQty l i n).get? i = some { s with quantity := s.quantity + n } := by
  induction l generalizing i with
  | nil => simp at h
  | cons t rest ih =>
      cases i with
      | zero =>
          simp only [List.get?_cons_zero, Option.some.injEq] at h
          rw [← h]
          rfl
      | succ j =>
          simp only [List.get?_cons_succ] at h
          show (updateQty rest j n).get? j = _
          exact ih j h

theorem updateQty_get_other (l : List Shoe) (i : Nat) (n : Int) (j : Nat) (hj : j ≠ i) :
    (updateQty l i n).get? j = l.get? j := by
  induction l generalizing i j with
  | nil => rfl
  | cons t rest ih =>
      cases i with
      | zero =>
          cases j with
          | zero => exact absurd rfl hj
          | succ k => rfl
      | succ i0 =>
          cases j with
          | zero => rfl
          | succ k =>
              show (updateQty rest i0 n).get? k = rest.get? k
              exact ih i0 k (fun e => hj (by rw [e]))

theorem firstValid_cons {α : Type} (f : String → Option α) (i : String)
    (rest : List String) :
    firstValid f (i :: rest)
      = match f i with
        | some a => some (a, rest)
        | none => firstValid f rest := rfl

theorem re_stock_def (shoes : List Shoe) (file : String) (inputs : List String) :
    re_stock shoes file inputs
      = (match minPair shoes with
         | none => some (shoes, file)
         | some iq =>
           (firstValid yesNoValid inputs).bind fun c1 =>
             if c1.1 then
               (firstValid qtyValid c1.2).map fun c2 =>
                 (updateQty shoes iq.1 c2.1,
                  write_shoes_data (updateQty shoes iq.1 c2.1))
             else some (shoes, file)) := rfl

theorem re_stock_eq (shoes : List Shoe) (file : String) (inputs : List String)
    (i : Nat) (q : Int) (hmin : minPair shoes = some (i, q)) :
    re_stock shoes file inputs
      = (firstValid yesNoValid inputs).bind fun c1 =>
          if c1.1 then
            (firstValid qtyValid c1.2).map fun c2 =>
              (updateQty shoes i c2.1, write_shoes_data (updateQty shoes i c2.1))
          else some (shoes, file) := by
  rw [re_stock_def, hmin]

/-- C4: on a non-empty collection, the restock target computed by
`minPair` (the model of `min(shoe_list, key=lambda shoe: shoe.quantity)`
used by `re_stock`) is the record at the earliest position whose quantity
equals the minimum over the whole collection — every record has quantity at
least the target quantity, and every strictly earlier record has a strictly
larger quantity; in particular on quantities `[5, 2, 2, 9]` the target index
is `1`. -/
theorem c4_restock_target (shoes : List Shoe) (h : shoes ≠ []) :
    (∃ i s, minPair shoes = some (i, s.quantity) ∧ shoes.get? i = some s ∧
      (∀ t ∈ shoes, s.quantity ≤ t.quantity) ∧
      (∀ j, j < i → ∀ t, shoes.get? j = some t → s.quantity < t.quantity)) ∧
    (minPair demo4).map Prod.fst = some 1 := by
  constructor
  · obtain ⟨i, q, hm⟩ := minPair_of_ne_nil shoes h
    obtain ⟨⟨s, hget, hq⟩, hmin, hfirst⟩ := minPair_char shoes i q hm
    refine ⟨i, s, by rw [hm, hq], hget, ?_, ?_⟩
    · intro t ht; rw [hq]; exact hmin t ht
    · intro j hj t hgt; rw [hq]; exact hfirst j hj t hgt
  · decide

/-- C4 witness: the first-encountered tie-break on the concrete collection
with quantities `[5, 2, 2, 9]` picks index `1`. -/
theorem c4_restock_target_witness : (minPair demo4).map Prod.fst = some 1 :=
  (c4_restock_target demo4 (by decide)).2

/-- C5: when restock is confirmed with a valid yes answer and a valid
non-negative amount `n`, `re_stock` updates exactly the target record,
adding `n` to its quantity and leaving every other record and every other
field unchanged, preserves the collection length, and persists the full
updated collection with `write_shoes_data`. -/
theorem c5_restock_frame (shoes : List Shoe) (file y a : String)
    (rest : List String) (i : Nat) (q n : Int) (s : Shoe)
    (hmin : minPair shoes = some (i, q))
    (hget : shoes.get? i = some s)
    (hy : yesNoValid y = some true)
    (ha : qtyValid a = some n) :
    re_stock shoes file (y :: a :: rest)
        = some (updateQty shoes i n, write_shoes_data (updateQty shoes i n))
      ∧ (updateQty shoes i n).length = shoes.length
      ∧ (updateQty shoes i n).get? i = some { s with quantity := s.quantity + n }
      ∧ (∀ j, j ≠ i → (updateQty shoes i n).get? j = shoes.get? j) := by
  have h1 : firstValid yesNoValid (y :: a :: rest) = some (true, a :: rest) := by
    rw [firstValid_cons, hy]
  have h2 : firstValid qtyValid (a :: rest) = some (n, rest) := by
    rw [firstValid_cons, ha]
  refine ⟨?_, updateQty_length shoes i n, updateQty_get_same shoes i n s hget,
          fun j hj => updateQty_get_other shoes i n j hj⟩
  rw [re_stock_eq shoes file _ i q hmin, h1]
  show (firstValid qtyValid (a :: rest)).map
      (fun c2 => (updateQty shoes i c2.1, write_shoes_data (updateQty shoes i c2.1)))
    = some (updateQty shoes i n, write_shoes_data (updateQty shoes i n))
  rw [h2]
  rfl

/-- C5 witness: restocking the `[5, 2, 2, 9]` collection with answer `yes`
and amount `3` updates index `1` and persists. -/
theorem c5_restock_frame_witness :
    re_stock demo4 "f" ["yes", "3"]
      = some (updateQty demo4 1 3, write_shoes_data (updateQty demo4 1 3)) :=
  (c5_restock_frame demo4 "f" "yes" "3" [] 1 2 3 (demoShoe "B" 2)
    (by decide) (by decide) (by decide) (by decide)).1

/-- C9: loading when the backing file is missing creates the file containing
only the literal header line `Country,Code,Product,Cost,Quantity` (followed
by its newline) and yields an empty collection with no line warnings and no
read error, whatever the previous in-memory collection was. -/
theorem c9_load_missing_file (prev : List Shoe) :
    read_shoes_data prev none
        = { shoes := [], file := some (HEADER ++ "\n"), warnings := [],
            readError := false }
      ∧ fileLines (HEADER ++ "\n") = [HEADER]
      ∧ HEADER = "Country,Code,Product,Cost,Quantity" :=
  ⟨rfl, by decide, rfl⟩

/-- C10: loading an existing but completely empty backing file (no header
line at all) leaves the collection empty and returns normally: the
`StopIteration` from skipping the absent header is absorbed by the broad
handler (`readError := true`), the file is not touched, and the previously
loaded collection was already cleared, so the result is independent of it. -/
theorem c10_load_empty_file (prev : List Shoe) :
    read_shoes_data prev (some "")
      = { shoes := [], file := some "", warnings := [], readError := true } := rfl

theorem readLine_not5 (line : String) (ds : List (List Char))
    (hsplit : splitOnChar ',' (pyStrip line).toList = ds) (hbad : ds.length ≠ 5) :
    readLine line = (none, [LoadWarning.malformed (pyStrip line)]) := by
  unfold readLine
  rw [hsplit]
  rcases ds with _ | ⟨a, _ | ⟨b, _ | ⟨c, _ | ⟨d, _ | ⟨e, _ | ⟨f, tail⟩⟩⟩⟩⟩⟩ <;>
    first
      | rfl
      | exact absurd rfl hbad

/-- C7: a data line that does not split on commas into exactly five fields
is skipped with a warning and produces no record, while every other line of
the file still produces exactly its own record — loading the file with the
malformed line yields the same collection as loading the file without it. -/
theorem c7_skip_malformed (prev : List Shoe) (content content2 : String)
    (header bad : String) (pre post : List String)
    (h1 : fileLines content = header :: (pre ++ bad :: post))
    (h2 : fileLines content2 = header :: (pre ++ post))
    (hbad : (splitOnChar ',' (pyStrip bad).toList).length ≠ 5) :
    (read_shoes_data prev (some content)).shoes
        = (read_shoes_data prev (some content2)).shoes ∧
    LoadWarning.malformed (pyStrip bad)
        ∈ (read_shoes_data prev (some content)).warnings := by
  have hline : readLine bad = (none, [LoadWarning.malformed (pyStrip bad)]) :=
    readLine_not5 bad _ rfl hbad
  rw [read_some_lines prev content header _ h1,
      read_some_lines prev content2 header _ h2]
  constructor
  · show (loadLines (pre ++ bad :: post)).1 = (loadLines (pre ++ post)).1
    rw [loadLines_append, loadLines_append, loadLines_cons, hline]
    simp
  · show LoadWarning.malformed (pyStrip bad) ∈ (loadLines (pre ++ bad :: post)).2
    rw [loadLines_append, loadLines_cons, hline]
    simp

/-- C7 witness: a file whose middle line has four fields loads exactly the
records of the same file without that line, and warns about it. -/
theorem c7_skip_malformed_witness :
    (read_shoes_data []
        (some "Country,Code,Product,Cost,Quantity\nA,B,C,1.0,2\nX,Y,Z,9\nD,E,F,3.0,4\n")).shoes
      = (read_shoes_data []
        (some "Country,Code,Product,Cost,Quantity\nA,B,C,1.0,2\nD,E,F,3.0,4\n")).shoes ∧
    LoadWarning.malformed (pyStrip "X,Y,Z,9")
      ∈ (read_shoes_data []
        (some "Country,Code,Product,Cost,Quantity\nA,B,C,1.0,2\nX,Y,Z,9\nD,E,F,3.0,4\n")).warnings :=
  c7_skip_malformed [] _ _ "Country,Code,Product,Cost,Quantity" "X,Y,Z,9"
    ["A,B,C,1.0,2"] ["D,E,F,3.0,4"] (by decide) (by decide) (by decide)

/-- C8: a five-field line whose cost (respectively quantity) field fails
numeric parsing still yields a record, with that field coerced to `0.0`
(respectively `0`), the remaining fields taken from the line unchanged and a
coercion warning recorded; and each line's contribution to the loaded
collection is independent of the surrounding lines.  `pyFloat` models
Python's `float` on finite numerals; the cost conjunct therefore excludes
the `inf`/`nan` spellings (via `isInfNanChars`), which Python accepts but
no finite `PyFloat` value represents. -/
theorem c8_coerce_bad_numeric (line : String) (c1 c2 c3 c4 c5 : List Char)
    (hsplit : splitOnChar ',' (pyStrip line).toList = [c1, c2, c3, c4, c5]) :
    (∀ q : Int, pyFloat (String.mk c4) = none →
        isInfNanChars (pyStripChars c4) = false →
        pyInt (String.mk c5) = some q →
        readLine line
          = (some ⟨String.mk c1, String.mk c2, String.mk c3, ⟨0, 0⟩, q⟩,
             [LoadWarning.invalidCost (String.mk c4) (String.mk c2)])) ∧
    (∀ cv : PyFloat, pyFloat (String.mk c4) = some cv →
        pyInt (String.mk c5) = none →
        readLine line
          = (some ⟨String.mk c1, String.mk c2, String.mk c3, cv, 0⟩,
             [LoadWarning.invalidQuantity (String.mk c5) (String.mk c2)])) ∧
    (∀ pre post, (loadLines (pre ++ line :: post)).1
        = (loadLines pre).1 ++ (readLine line).1.toList ++ (loadLines post).1) := by
  refine ⟨?_, ?_, ?_⟩
  · intro q hc _ hq
    unfold readLine
    rw [hsplit]
    show (some (Shoe.ofStrings (String.mk c1) (String.mk c2) (String.mk c3)
        (String.mk c4) (String.mk c5)).1,
      (Shoe.ofStrings (String.mk c1) (String.mk c2) (String.mk c3)
        (String.mk c4) (String.mk c5)).2) = _
    unfold Shoe.ofStrings
    rw [hc, hq]
    rfl
  · intro cv hc hq
    unfold readLine
    rw [hsplit]
    show (some (Shoe.ofStrings (String.mk c1) (String.mk c2) (String.mk c3)
        (String.mk c4) (String.mk c5)).1,
      (Shoe.ofStrings (String.mk c1) (String.mk c2) (String.mk c3)
        (String.mk c4) (String.mk c5)).2) = _
    unfold Shoe.ofStrings
    rw [hc, hq]
    rfl
  · intro pre post
    rw [loadLines_append, loadLines_cons]
    simp [List.append_assoc]

/-- C8 witness: the line `A,B,C,abc,4` loads as the record with cost `0.0`,
quantity `4` and a cost-coercion warning. -/
theorem c8_coerce_bad_numeric_witness :
    readLine "A,B,C,abc,4"
      = (some ⟨"A", "B", "C", ⟨0, 0⟩, 4⟩, [LoadWarning.invalidCost "abc" "B"]) :=
  (c8_coerce_bad_numeric "A,B,C,abc,4" ['A'] ['B'] ['C'] ['a', 'b', 'c'] ['4']
    (by decide)).1 4 (by decide) (by decide) (by decide)

/-- C2: during capture, an entered code whose uppercased, stripped form
equals the code of a record already in the collection is rejected by the
code validator, and the capture run behaves exactly as if that input line
had never been typed — the rejected entry is re-prompted and changes neither
the in-memory collection nor the backing file. -/
theorem c2_capture_rejects_duplicate (shoes : List Shoe) (file : String)
    (bad : String) (sh : Shoe) (hmem : sh ∈ shoes)
    (hcode : sh.code = pyUpper (pyStrip bad)) :
    codeValid shoes bad = none ∧
    ∀ c0 country rest, nonEmptyInput c0 = some country →
      capture_shoes shoes file (c0 :: bad :: rest)
        = capture_shoes shoes file (c0 :: rest) := by
  have hreject : codeValid shoes bad = none := by
    unfold codeValid
    by_cases hz : pyUpper (pyStrip bad) = ""
    · rw [if_pos hz]
    · have hany : (shoes.any fun sh2 => sh2.code == pyUpper (pyStrip bad)) = true :=
        List.any_eq_true.2 ⟨sh, hmem, by rw [beq_iff_eq]; exact hcode⟩
      rw [if_neg hz, if_pos hany]
  refine ⟨hreject, ?_⟩
  intro c0 country rest hc0
  unfold capture_shoes
  have h0l : firstValid nonEmptyInput (c0 :: bad :: rest)
      = some (country, bad :: rest) := by
    rw [firstValid_cons, hc0]
  have h0r : firstValid nonEmptyInput (c0 :: rest) = some (country, rest) := by
    rw [firstValid_cons, hc0]
  rw [h0l, h0r]
  show (firstValid (codeValid shoes) (bad :: rest)).bind _
      = (firstValid (codeValid shoes) rest).bind _
  rw [firstValid_cons, hreject]

/-- C2 witness: with the collection of codes `A`, `B`, `C`, `D`, typing the
colliding code `a` is skipped and the capture proceeds as without it. -/
theorem c2_capture_rejects_duplicate_witness :
    capture_shoes demo4 "f" ["SA", "a", "E9", "P", "1.0", "2"]
      = capture_shoes demo4 "f" ["SA", "E9", "P", "1.0", "2"] :=
  (c2_capture_rejects_duplicate demo4 "f" "a" (demoShoe "A" 5)
    (by decide) (by decide)).2 "SA" "SA" ["E9", "P", "1.0", "2"] (by decide)

theorem firstValid_some {α : Type} (f : String → Option α) (inputs : List String)
    (a : α) (r : List String) (h : firstValid f inputs = some (a, r)) :
    ∃ i, f i = some a := by
  induction inputs with
  | nil => simp [firstValid] at h
  | cons i t ih =>
      rw [firstValid_cons] at h
      cases hf : f i with
      | none => rw [hf] at h; exact ih h
      | some b =>
          rw [hf] at h
          have hb : (b, t) = (a, r) := Option.some.inj h
          exact ⟨i, by rw [hf]; exact congrArg (fun p => some p.1) hb⟩

theorem costValid_nonneg (inp : String) (c : PyFloat)
    (h : costValid inp = some c) : 0 ≤ c.toRat := by
  unfold costValid at h
  cases hp : pyFloat (pyStrip inp) with
  | none => rw [hp] at h; simp at h
  | some v =>
      rw [hp] at h
      simp only at h
      split at h
      · rw [← Option.some.inj h]; assumption
      · simp at h

theorem qtyValid_nonneg (inp : String) (n : Int)
    (h : qtyValid inp = some n) : 0 ≤ n := by
  unfold qtyValid at h
  cases hp : pyInt (pyStrip inp) with
  | none => rw [hp] at h; simp at h
  | some v =>
      rw [hp] at h
      simp only at h
      split at h
      · rw [← Option.some.inj h]; assumption
      · simp at h

theorem capture_shoes_spec (shoes : List Shoe) (file : String)
    (inputs : List String) (shoes2 : List Shoe) (file2 : String)
    (h : capture_shoes shoes file inputs = some (shoes2, file2)) :
    ∃ country code product cost quantity,
      (∃ i, costValid i = some cost) ∧ (∃ i, qtyValid i = some quantity) ∧
      shoes2 = shoes ++ [⟨country, code, product, cost, quantity⟩] ∧
      file2 = write_shoes_data shoes2 := by
  unfold capture_shoes at h
  rw [Option.bind_eq_some] at h
  obtain ⟨c1, h1, h⟩ := h
  rw [Option.bind_eq_some] at h
  obtain ⟨c2, h2, h⟩ := h
  rw [Option.bind_eq_some] at h
  obtain ⟨c3, h3, h⟩ := h
  rw [Option.bind_eq_some] at h
  obtain ⟨c4, h4, h⟩ := h
  rw [Option.map_eq_some'] at h
  obtain ⟨c5, h5, h⟩ := h
  have hs : shoes2 = shoes ++ [⟨c1.1, c2.1, c3.1, c4.1, c5.1⟩] :=
    (congrArg Prod.fst h).symm
  have hf2 : file2 = write_shoes_data (shoes ++ [⟨c1.1, c2.1, c3.1, c4.1, c5.1⟩]) :=
    (congrArg Prod.snd h).symm
  exact ⟨c1.1, c2.1, c3.1, c4.1, c5.1,
    firstValid_some _ _ _ _ h4, firstValid_some _ _ _ _ h5, hs,
    by rw [hf2, hs]⟩

theorem updateQty_mem (l : List Shoe) (i : Nat) (n : Int) (s2 : Shoe)
    (h : s2 ∈ updateQty l i n) :
    s2 ∈ l ∨ ∃ s ∈ l, s2 = { s with quantity := s.quantity + n } := by
  induction l generalizing i with
  | nil => simp [updateQty] at h
  | cons t rest ih =>
      cases i with
      | zero =>
          rcases List.mem_cons.1 h with h | h
          · exact Or.inr ⟨t, List.mem_cons_self t rest, h⟩
          · exact Or.inl (List.mem_cons_of_mem t h)
      | succ j =>
          rcases List.mem_cons.1 h with h | h
          · exact Or.inl (h ▸ List.mem_cons_self t rest)
          · rcases ih j h with h | ⟨s, hs, he⟩
            · exact Or.inl (List.mem_cons_of_mem t h)
            · exact Or.inr ⟨s, List.mem_cons_of_mem t hs, he⟩

theorem re_stock_spec (shoes : List Shoe) (file : String) (inputs : List String)
    (shoes2 : List Shoe) (file2 : String)
    (h : re_stock shoes file inputs = some (shoes2, file2)) :
    shoes2 = shoes ∨ ∃ i n, (∃ inp, qtyValid inp = some n)
      ∧ shoes2 = updateQty shoes i n := by
  rw [re_stock_def] at h
  cases hm : minPair shoes with
  | none =>
      rw [hm] at h
      exact Or.inl (congrArg Prod.fst (Option.some.inj h)).symm
  | some iq =>
      rw [hm] at h
      rw [Option.bind_eq_some] at h
      obtain ⟨c1, h1, h⟩ := h
      by_cases hb : c1.1 = true
      · rw [if_pos hb] at h
        rw [Option.map_eq_some'] at h
        obtain ⟨c2, h2, h⟩ := h
        refine Or.inr ⟨iq.1, c2.1, firstValid_some _ _ _ _ h2, ?_⟩
        exact (congrArg Prod.fst h).symm
      · rw [if_neg hb] at h
        exact Or.inl (congrArg Prod.fst (Option.some.inj h)).symm

/-- C3 counterexample: the claim asserts the non-negativity invariant also
for records created by parsing the backing file, but the loader accepts
negative numerals unchecked — the line `A,B,C,-1.0,-2` loads as a record
with cost `-1.0` and quantity `-2`. -/
theorem c3_counterexample :
    ¬ ∀ s ∈ (read_shoes_data []
        (some "Country,Code,Product,Cost,Quantity\nA,B,C,-1.0,-2\n")).shoes,
      0 ≤ s.cost.toRat ∧ 0 ≤ s.quantity := by
  intro hall
  have hshoes : (read_shoes_data []
      (some "Country,Code,Product,Cost,Quantity\nA,B,C,-1.0,-2\n")).shoes
      = [⟨"A", "B", "C", ⟨-10, 1⟩, -2⟩] := by decide
  have hneg : (0 : Int) ≤ -2 := (hall ⟨"A", "B", "C", ⟨-10, 1⟩, -2⟩
    (by rw [hshoes]; exact List.mem_singleton.2 rfl)).2
  omega

/-- C3 (amended): every record created by the interactive capture flow has a
non-negative cost and a non-negative integer quantity (its validators reject
negative input), and restock preserves the invariant because it only ever
adds a validated non-negative amount; records parsed from the backing file,
however, are only coerced to zero on parse failure and may carry negative
values when the file contains negative numerals. -/
theorem c3_nonneg_capture_restock :
    (∀ shoes file inputs shoes2 file2,
        capture_shoes shoes file inputs = some (shoes2, file2) →
        ∀ s2 ∈ shoes2, s2 ∈ shoes ∨ (0 ≤ s2.cost.toRat ∧ 0 ≤ s2.quantity)) ∧
    (∀ shoes file inputs shoes2 file2,
        re_stock shoes file inputs = some (shoes2, file2) →
        (∀ s ∈ shoes, 0 ≤ s.cost.toRat ∧ 0 ≤ s.quantity) →
        ∀ s2 ∈ shoes2, 0 ≤ s2.cost.toRat ∧ 0 ≤ s2.quantity) := by
  constructor
  · intro shoes file inputs shoes2 file2 h s2 hs2
    obtain ⟨country, code, product, cost, quantity, ⟨ic, hic⟩, ⟨iq, hiq⟩, hs, _⟩ :=
      capture_shoes_spec shoes file inputs shoes2 file2 h
    rw [hs] at hs2
    rcases List.mem_append.1 hs2 with hs2 | hs2
    · exact Or.inl hs2
    · rw [List.mem_singleton.1 hs2]
      exact Or.inr ⟨costValid_nonneg ic cost hic, qtyValid_nonneg iq quantity hiq⟩
  · intro shoes file inputs shoes2 file2 h hall s2 hs2
    rcases re_stock_spec shoes file inputs shoes2 file2 h with hs | ⟨i, n, ⟨inp, hinp⟩, hs⟩
    · rw [hs] at hs2; exact hall s2 hs2
    · rw [hs] at hs2
      rcases updateQty_mem shoes i n s2 hs2 with hm | ⟨s, hsm, he⟩
      · exact hall s2 hm
      · have hn : 0 ≤ n := qtyValid_nonneg inp n hinp
        have hsold := hall s hsm
        rw [he]
        refine ⟨hsold.1, ?_⟩
        show 0 ≤ s.quantity + n
        have := hsold.2
        omega

/-- C3 witness: a concrete capture run on the empty collection produces the
record `SA,C1,P,1.5,2`, which is newly captured and non-negative. -/
theorem c3_nonneg_capture_restock_witness :
    (⟨"SA", "C1", "P", ⟨15, 1⟩, 2⟩ : Shoe) ∈ ([] : List Shoe)
      ∨ (0 ≤ (PyFloat.mk 15 1).toRat ∧ 0 ≤ (2 : Int)) := by
  have hc : costValid "1.5" = some ⟨15, 1⟩ := by
    unfold costValid
    rw [show pyFloat (pyStrip "1.5") = some ⟨15, 1⟩ from by decide]
    show (if (0 : Rat) ≤ PyFloat.toRat ⟨15, 1⟩ then some (⟨15, 1⟩ : PyFloat) else none)
        = some ⟨15, 1⟩
    rw [if_pos (show (0 : Rat) ≤ PyFloat.toRat ⟨15, 1⟩ by
      unfold PyFloat.toRat
      norm_num)]
  have hcap : capture_shoes [] "f" ["SA", "C1", "P", "1.5", "2"]
      = some ([⟨"SA", "C1", "P", ⟨15, 1⟩, 2⟩],
              write_shoes_data [⟨"SA", "C1", "P", ⟨15, 1⟩, 2⟩]) := by
    simp only [capture_shoes, firstValid_cons,
      show nonEmptyInput "SA" = some "SA" from by decide,
      show codeValid [] "C1" = some "C1" from by decide,
      show nonEmptyInput "P" = some "P" from by decide,
      hc,
      show qtyValid "2" = some 2 from by decide,
      Option.some_bind, Option.map_some']
    rfl
  exact c3_nonneg_capture_restock.1 [] "f" ["SA", "C1", "P", "1.5", "2"]
    [⟨"SA", "C1", "P", ⟨15, 1⟩, 2⟩]
    (write_shoes_data [⟨"SA", "C1", "P", ⟨15, 1⟩, 2⟩])
    hcap ⟨"SA", "C1", "P", ⟨15, 1⟩, 2⟩ (by decide)

theorem find?_first {α : Type} (p : α → Bool) (l : List α) (x : α)
    (h : l.find? p = some x) :
    ∃ i, l.get? i = some x ∧ p x = true ∧
      ∀ j, j < i → ∀ t, l.get? j = some t → p t = false := by
  induction l with
  | nil => simp [List.find?] at h
  | cons a t ih =>
      cases hp : p a with
      | true =>
          rw [List.find?_cons_of_pos _ hp] at h
          refine ⟨0, ?_, ?_, ?_⟩
          · rw [List.get?_cons_zero, h]
          · rw [← Option.some.inj h]; exact hp
          · intro j hj; omega
      | false =>
          rw [List.find?_cons_of_neg _ (by simp [hp])] at h
          obtain ⟨i, hg, hpx, hfirst⟩ := ih h
          refine ⟨i + 1, by simpa using hg, hpx, ?_⟩
          intro j hj t hget
          cases j with
          | zero =>
              rw [List.get?_cons_zero] at hget
              rw [← Option.some.inj hget]
              exact hp
          | succ k =>
              rw [List.get?_cons_succ] at hget
              exact hfirst k (by omega) t hget

theorem find?_complete {α : Type} (p : α → Bool) (l : List α) (i : Nat) (x : α)
    (hget : l.get? i = some x) (hpx : p x = true)
    (hfirst : ∀ j, j < i → ∀ t, l.get? j = some t → p t = false) :
    l.find? p = some x := by
  induction l generalizing i with
  | nil => simp at hget
  | cons a t ih =>
      cases i with
      | zero =>
          rw [List.get?_cons_zero] at hget
          have hax : a = x := Option.some.inj hget
          have hpa : p a = true := by rw [hax]; exact hpx
          rw [List.find?_cons_of_pos _ hpa, hax]
      | succ k =>
          have hpa : p a = false := hfirst 0 (Nat.succ_pos k) a rfl
          rw [List.find?_cons_of_neg _ (by simp [hpa])]
          exact ih k (by simpa using hget)
            (fun j hj u hgu => hfirst (j + 1) (by omega) u hgu)

/-- C6: `search_shoe` uppercases the stripped query and scans the collection
in order: it reports a found record exactly when some stored code equals the
uppercased query.  Whenever it reports a found record, that record is the
first in iteration order whose stored code equals the uppercased query;
conversely the first such record, when one exists, is reported as found; and
on a non-empty collection in which no stored code equals the uppercased
query the outcome is the not-found message carrying that query.  The
operation is a pure read and returns only an outcome, never a modified
collection. -/
theorem c6_search_spec (shoes : List Shoe) (query : String) :
    (∀ s, search_shoe shoes query = SearchOutcome.found s →
       ∃ i, shoes.get? i = some s ∧ s.code = pyUpper (pyStrip query) ∧
         ∀ j, j < i → ∀ t, shoes.get? j = some t
           → t.code ≠ pyUpper (pyStrip query)) ∧
    (∀ i s, shoes.get? i = some s → s.code = pyUpper (pyStrip query) →
       (∀ j, j < i → ∀ t, shoes.get? j = some t
           → t.code ≠ pyUpper (pyStrip query)) →
       search_shoe shoes query = SearchOutcome.found s) ∧
    (shoes ≠ [] → (∀ s ∈ shoes, s.code ≠ pyUpper (pyStrip query)) →
       search_shoe shoes query
         = SearchOutcome.notFound (pyUpper (pyStrip query))) := by
  refine ⟨?_, ?_, ?_⟩
  · intro s hs
    cases shoes with
    | nil => simp [search_shoe] at hs
    | cons a t =>
        rw [show search_shoe (a :: t) query
            = (match (a :: t).find? (fun sh => sh.code == pyUpper (pyStrip query)) with
               | some sh => SearchOutcome.found sh
               | none => SearchOutcome.notFound (pyUpper (pyStrip query)))
            from rfl] at hs
        cases hf : (a :: t).find? (fun sh => sh.code == pyUpper (pyStrip query)) with
        | none => rw [hf] at hs; simp at hs
        | some sh =>
            rw [hf] at hs
            simp only [SearchOutcome.found.injEq] at hs
            rw [hs] at hf
            obtain ⟨i, hget, hps, hfirst⟩ := find?_first _ _ _ hf
            refine ⟨i, hget, by rwa [beq_iff_eq] at hps, ?_⟩
            intro j hj u hgu he
            have := hfirst j hj u hgu
            rw [he] at this
            simp at this
  · intro i s hget hcode hfirst
    cases shoes with
    | nil => simp at hget
    | cons a t =>
        rw [show search_shoe (a :: t) query
            = (match (a :: t).find? (fun sh => sh.code == pyUpper (pyStrip query)) with
               | some sh => SearchOutcome.found sh
               | none => SearchOutcome.notFound (pyUpper (pyStrip query)))
            from rfl,
          find?_complete _ _ i s hget (by rw [beq_iff_eq]; exact hcode)
            (fun j hj u hgu => by
              rw [beq_eq_false_iff_ne]
              exact hfirst j hj u hgu)]
  · intro hne hnone
    cases shoes with
    | nil => exact absurd rfl hne
    | cons a t =>
        rw [show search_shoe (a :: t) query
            = (match (a :: t).find? (fun sh => sh.code == pyUpper (pyStrip query)) with
               | some sh => SearchOutcome.found sh
               | none => SearchOutcome.notFound (pyUpper (pyStrip query)))
            from rfl,
          List.find?_eq_none.2
            (fun x hx => by simp only [beq_iff_eq]; exact hnone x hx)]

/-- C6 witness: searching the demo collection for the lowercase query `a`
finds the record with code `A` (the match at index 0). -/
theorem c6_search_spec_witness :
    search_shoe demo4 "a" = SearchOutcome.found (demoShoe "A" 5) :=
  (c6_search_spec demo4 "a").2.1 0 (demoShoe "A" 5) (by decide) (by decide)
    (fun j hj => absurd hj (Nat.not_lt_zero j))
